import Mathlib

/-!
Verification of the Signet remote-signing bunker's authorization and signing
engine against its natural-language specification.

The development shallowly embeds the TypeScript source:
  - the relational policy store (Prisma over SQLite) becomes an explicit `Db`
    record of row lists; `findUnique`/`findFirst` become `List.find?` in
    insertion (rowid) order; inserts append at the end of a list;
  - timestamps are integer milliseconds; `JSON.parse` is an executable
    JSON parser over an inductive JSON value type (JSON numbers are
    modelled as integers: Nostr event kinds are integers);
  - external cryptographic primitives (AES-256-CBC, PBKDF2) are parameters
    of the vault definitions, assumed only to satisfy the standard
    functional properties of a cipher;
  - fallible code returns `Option` / `Except`.
-/

namespace Signet

/-! ## JSON values and a JSON.parse model -/

/-- JSON values as produced by `JSON.parse`.  Numbers are modelled as
integers (fractional and exponent forms are rejected by the parser model;
Nostr event kinds are integers). -/
inductive Json : Type where
  | null : Json
  | bool : Bool → Json
  | num : Int → Json
  | str : String → Json
  | arr : List Json → Json
  | obj : List (String × Json) → Json

/-- Left brace character (written via its code point). -/
def lbrace : Char := Char.ofNat 123

/-- Right brace character (written via its code point). -/
def rbrace : Char := Char.ofNat 125

def isWsChar (c : Char) : Bool :=
  [' ', '\t', '\n', '\r'].contains c

def skipWs (cs : List Char) : List Char :=
  cs.dropWhile isWsChar

def isDigitChar (c : Char) : Bool :=
  decide ('0' ≤ c) && decide (c ≤ '9')

def digitsToNat (ds : List Char) : Nat :=
  ds.foldl (fun a c => a * 10 + (c.toNat - 48)) 0

/-- Parse a run of decimal digits (JSON forbids leading zeros on
multi-digit numbers). -/
def parseNatNum (cs : List Char) : Option (Nat × List Char) :=
  let ds := cs.takeWhile isDigitChar
  if ds.isEmpty then none
  else if ds.length > 1 && ds.headI == '0' then none
  else some (digitsToNat ds, cs.dropWhile isDigitChar)

def hexDigitVal (c : Char) : Option Nat :=
  if isDigitChar c then some (c.toNat - 48)
  else if decide ('a' ≤ c) && decide (c ≤ 'f') then some (c.toNat - 87)
  else if decide ('A' ≤ c) && decide (c ≤ 'F') then some (c.toNat - 55)
  else none

/-- Parse the body of a JSON string literal after the opening quote,
handling the JSON escape sequences. -/
def parseStringBody : Nat → List Char → Option (String × List Char)
  | 0, _ => none
  | _, [] => none
  | fuel + 1, c :: rest =>
    if c == '"' then some ("", rest)
    else if c == '\\' then
      match rest with
      | [] => none
      | e :: rest2 =>
        let esc : Option (Char × List Char) :=
          if e == '"' then some ('"', rest2)
          else if e == '\\' then some ('\\', rest2)
          else if e == '/' then some ('/', rest2)
          else if e == 'b' then some (Char.ofNat 8, rest2)
          else if e == 'f' then some (Char.ofNat 12, rest2)
          else if e == 'n' then some ('\n', rest2)
          else if e == 'r' then some ('\r', rest2)
          else if e == 't' then some ('\t', rest2)
          else if e == 'u' then
            match rest2 with
            | a :: b :: c2 :: d :: rest3 =>
              match hexDigitVal a, hexDigitVal b, hexDigitVal c2, hexDigitVal d with
              | some ha, some hb, some hc, some hd =>
                  some (Char.ofNat (((ha * 16 + hb) * 16 + hc) * 16 + hd), rest3)
              | _, _, _, _ => none
            | _ => none
          else none
        match esc with
        | none => none
        | some (ch, rest3) =>
          match parseStringBody fuel rest3 with
          | none => none
          | some (s, rem) => some (⟨ch :: s.data⟩, rem)
    else
      match parseStringBody fuel rest with
      | none => none
      | some (s, rem) => some (⟨c :: s.data⟩, rem)

mutual

/-- Parse one JSON value (fuel-bounded recursive descent). -/
def parseVal : Nat → List Char → Option (Json × List Char)
  | 0, _ => none
  | fuel + 1, cs =>
    match skipWs cs with
    | [] => none
    | c :: rest =>
      if c == '"' then
        match parseStringBody (fuel + 1) rest with
        | some (s, r) => some (Json.str s, r)
        | none => none
      else if c == lbrace then
        match skipWs rest with
        | c2 :: rest2 =>
          if c2 == rbrace then some (Json.obj [], rest2)
          else
            match parseMembers fuel (c2 :: rest2) with
            | some (fields, r) => some (Json.obj fields, r)
            | none => none
        | [] => none
      else if c == '[' then
        match skipWs rest with
        | c2 :: rest2 =>
          if c2 == ']' then some (Json.arr [], rest2)
          else
            match parseElems fuel (c2 :: rest2) with
            | some (elems, r) => some (Json.arr elems, r)
            | none => none
        | [] => none
      else if c == 't' then
        match rest with
        | 'r' :: 'u' :: 'e' :: r => some (Json.bool true, r)
        | _ => none
      else if c == 'f' then
        match rest with
        | 'a' :: 'l' :: 's' :: 'e' :: r => some (Json.bool false, r)
        | _ => none
      else if c == 'n' then
        match rest with
        | 'u' :: 'l' :: 'l' :: r => some (Json.null, r)
        | _ => none
      else if c == '-' then
        match parseNatNum rest with
        | some (n, r) => some (Json.num (-(n : Int)), r)
        | none => none
      else
        match parseNatNum (c :: rest) with
        | some (n, r) => some (Json.num (n : Int), r)
        | none => none

/-- Parse the members of a JSON object after the opening brace. -/
def parseMembers : Nat → List Char → Option (List (String × Json) × List Char)
  | 0, _ => none
  | fuel + 1, cs =>
    match skipWs cs with
    | [] => none
    | c :: rest =>
      if c == '"' then
        match parseStringBody fuel rest with
        | some (key, r1) =>
          match skipWs r1 with
          | ':' :: r2 =>
            match parseVal fuel r2 with
            | some (v, r3) =>
              match skipWs r3 with
              | ',' :: r4 =>
                match parseMembers fuel r4 with
                | some (fields, r5) => some ((key, v) :: fields, r5)
                | none => none
              | c5 :: r5 =>
                if c5 == rbrace then some ([(key, v)], r5) else none
              | [] => none
            | none => none
          | _ => none
        | none => none
      else none

/-- Parse the elements of a JSON array after the opening bracket. -/
def parseElems : Nat → List Char → Option (List Json × List Char)
  | 0, _ => none
  | fuel + 1, cs =>
    match parseVal fuel cs with
    | some (v, r) =>
      match skipWs r with
      | ',' :: r2 =>
        match parseElems fuel r2 with
        | some (elems, r3) => some (v :: elems, r3)
        | none => none
      | ']' :: r2 => some ([v], r2)
      | _ => none
    | none => none

end

/-- Model of `JSON.parse`: parse one value, require only whitespace after. -/
def Json.parse (s : String) : Option Json :=
  match parseVal (2 * s.data.length + 4) s.data with
  | some (v, rem) => if skipWs rem = [] then some v else none
  | none => none

/-- Property access `value[key]` in JS: only objects have fields, and a
duplicate key in a JSON document resolves to the last occurrence. -/
def Json.getField : Json → String → Option Json
  | Json.obj fields, k => (fields.reverse.find? (fun f => f.1 == k)).map (·.2)
  | _, _ => none

/-- JS truthiness of a JSON value. -/
def Json.truthy : Json → Bool
  | Json.null => false
  | Json.bool b => b
  | Json.num n => n != 0
  | Json.str s => s != ""
  | Json.arr _ => true
  | Json.obj _ => true

/-! ## Policy-store data model (`src/apps/signet/src/daemon` over Prisma)

Rows carry exactly the attributes the embedded operations consult.
Timestamps are integer milliseconds; a nullable column is an `Option`. -/

structure KeyUser where
  id : Nat
  keyName : String
  userPubkey : String
  description : Option String
  revokedAt : Option Int
  deriving Repr, DecidableEq

structure SigningCondition where
  keyUserId : Nat
  method : String
  kind : Option String
  allowed : Option Bool
  deriving Repr, DecidableEq

structure PolicyRule where
  method : String
  kind : Option Int
  deriving Repr, DecidableEq

structure Policy where
  id : Nat
  rules : List PolicyRule
  deriving Repr, DecidableEq

structure Token where
  id : Nat
  token : String
  keyName : String
  clientName : Option String
  policyId : Option Nat
  expiresAt : Option Int
  redeemedAt : Option Int
  keyUserId : Option Nat
  deriving Repr, DecidableEq

structure ReqRecord where
  id : Nat
  requestId : String
  keyName : Option String
  remotePubkey : String
  method : String
  params : Option String
  allowed : Option Bool
  createdAt : Int
  processedAt : Option Int
  deriving Repr, DecidableEq

structure LogRow where
  timestamp : Int
  type : String
  method : Option String
  params : Option String
  keyUserId : Nat
  deriving Repr, DecidableEq

/-- The single-writer relational store.  `find?` scans each list in
insertion (rowid) order, matching Prisma `findFirst`/`findUnique` over
SQLite; inserts append at the end; `nextId` models autoincrement ids. -/
structure Db where
  keyUsers : List KeyUser
  conds : List SigningCondition
  tokens : List Token
  policies : List Policy
  requests : List ReqRecord
  logs : List LogRow
  nextId : Nat
  deriving Repr, DecidableEq

/-! ## ACL evaluator (`daemon/lib/acl.ts`) -/

/-- The argument of `isRequestPermitted`: `string | NostrEvent | NDKEvent`.
An event object carries an optional numeric `kind`. -/
inductive RpcPayload where
  | str (s : String)
  | evt (kind : Option Int)
  deriving Repr, DecidableEq

/-- `extractKind`: a string payload is `JSON.parse`d and its numeric `kind`
field extracted; an event object yields its own numeric `kind`. -/
def extractKind : Option RpcPayload → Option Int
  | none => none
  | some (RpcPayload.str s) =>
    match Json.parse s with
    | some j =>
      match j.getField "kind" with
      | some (Json.num n) => some n
      | _ => none
    | none => none
  | some (RpcPayload.evt k) => k

/-- `SigningConditionQuery`: `buildConditionQuery` only ever produces a
`kind: \x7b in: [...] \x7d` filter (or no kind filter at all). -/
structure SigningConditionQuery where
  method : String
  kindIn : Option (List String)
  deriving Repr, DecidableEq

/-- `buildConditionQuery`: no kind filter unless the method is
`sign_event`; for `sign_event` the kind set is `{"all"}` plus the extracted
event kind rendered in decimal. -/
def buildConditionQuery (method : String) (payload : Option RpcPayload) :
    SigningConditionQuery :=
  if method ≠ "sign_event" then ⟨method, none⟩
  else
    match extractKind payload with
    | some k => ⟨method, some ["all", toString k]⟩
    | none => ⟨method, some ["all"]⟩

/-- Whether a stored condition row matches a query: Prisma
`kind: \x7b in: ks \x7d` does not match a NULL kind column. -/
def condMatchesQuery (q : SigningConditionQuery) (sc : SigningCondition) : Bool :=
  sc.method == q.method &&
    (match q.kindIn with
     | none => true
     | some ks =>
       match sc.kind with
       | some v => ks.contains v
       | none => false)

/-- `prisma.keyUser.findUnique` on the `(keyName, userPubkey)` unique pair. -/
def findKeyUser (db : Db) (keyName userPubkey : String) : Option KeyUser :=
  db.keyUsers.find? (fun ku => ku.keyName == keyName && ku.userPubkey == userPubkey)

/-- Whether a condition row is the wildcard veto for a given key user. -/
def isVetoRow (keyUserId : Nat) (sc : SigningCondition) : Bool :=
  sc.keyUserId == keyUserId && sc.method == "*" && sc.allowed == some false

/-- `isRequestPermitted` (`daemon/lib/acl.ts`): `none` is the TS
`undefined` (unknown), `some b` a definite allow/deny. -/
def isRequestPermitted (db : Db) (keyName remotePubkey method : String)
    (payload : Option RpcPayload) : Option Bool :=
  match findKeyUser db keyName remotePubkey with
  | none => none
  | some keyUser =>
    match db.conds.find? (isVetoRow keyUser.id) with
    | some _ => some false
    | none =>
      let query := buildConditionQuery method payload
      match db.conds.find?
          (fun sc => sc.keyUserId == keyUser.id && condMatchesQuery query sc) with
      | none => none
      | some condition =>
        if condition.allowed == some true && keyUser.revokedAt.isSome then
          some false
        else
          match condition.allowed with
          | some b => some b
          | none => none

/-- `AllowScope.kind`: a specific integer kind or the literal string
`"all"`. -/
inductive KindScope where
  | all
  | num (k : Int)
  deriving Repr, DecidableEq

/-- `scope.kind.toString()`. -/
def KindScope.toStr : KindScope → String
  | .all => "all"
  | .num k => toString k

structure AllowScope where
  kind : Option KindScope
  deriving Repr, DecidableEq

/-- The `(method, kind)` data of a condition row to be created. -/
structure CondData where
  method : String
  kind : Option String
  deriving Repr, DecidableEq

/-- `scopeToCondition`. -/
def scopeToCondition (method : String) (scope : Option AllowScope) : CondData :=
  match scope with
  | none => ⟨method, none⟩
  | some s =>
    match s.kind with
    | none => ⟨method, none⟩
    | some ks => ⟨method, some ks.toStr⟩

/-- `prisma.keyUser.upsert` on the unique pair: return the existing row
unchanged (`update: \x7b\x7d`), or append a fresh row. -/
def upsertKeyUser (db : Db) (keyName userPubkey : String)
    (description : Option String) : KeyUser × Db :=
  match findKeyUser db keyName userPubkey with
  | some ku => (ku, db)
  | none =>
    let ku : KeyUser := ⟨db.nextId, keyName, userPubkey, description, none⟩
    (ku, { db with keyUsers := db.keyUsers ++ [ku], nextId := db.nextId + 1 })

/-- `permitAllRequests`: upsert the key user and append one
`allowed=true` condition derived from the scope. -/
def permitAllRequests (db : Db) (remotePubkey keyName method : String)
    (description : Option String) (scope : Option AllowScope) : Db :=
  let r := upsertKeyUser db keyName remotePubkey description
  let cd := scopeToCondition method scope
  { r.2 with conds := r.2.conds ++ [⟨r.1.id, cd.method, cd.kind, some true⟩] }

/-- `blockAllRequests`: upsert the key user and append the
`method='*', allowed=false` veto row. -/
def blockAllRequests (db : Db) (remotePubkey keyName : String) : Db :=
  let r := upsertKeyUser db keyName remotePubkey none
  { r.2 with conds := r.2.conds ++ [⟨r.1.id, "*", none, some false⟩] }

/-! ## Token redemption (`daemon/backend.ts`) -/

def findToken (db : Db) (token : String) : Option Token :=
  db.tokens.find? (fun t => t.token == token)

def findPolicy (db : Db) (id : Nat) : Option Policy :=
  db.policies.find? (fun p => p.id == id)

/-- `fetchValidToken`: the four validity checks, in source order, all
before any write. -/
def fetchValidToken (db : Db) (now : Int) (token : String) :
    Except String (Token × Policy) :=
  match findToken db token with
  | none => .error "Token not found"
  | some record =>
    if record.redeemedAt.isSome then .error "Token already redeemed"
    else
      match record.policyId.bind (findPolicy db) with
      | none => .error "Token policy missing"
      | some policy =>
        match record.expiresAt with
        | some e => if e < now then .error "Token expired" else .ok (record, policy)
        | none => .ok (record, policy)

/-- The condition row created for one policy rule. -/
def ruleCond (keyUserId : Nat) (rule : PolicyRule) : SigningCondition :=
  ⟨keyUserId, rule.method, rule.kind.map toString, some true⟩

/-- The `for (const rule of record.policy.rules)` loop of `applyToken`:
one `signingCondition.create` per rule, in rule order. -/
def appendRuleConds (keyUserId : Nat) (db : Db) (rules : List PolicyRule) : Db :=
  rules.foldl
    (fun acc rule => { acc with conds := acc.conds ++ [ruleCond keyUserId rule] }) db

/-- `applyToken`: fetch a valid token, upsert the key user, append the
`connect` condition then one condition per policy rule, finally mark the
token redeemed. -/
def applyToken (db : Db) (now : Int) (remotePubkey token : String) :
    Except String Db :=
  match fetchValidToken db now token with
  | .error e => .error e
  | .ok (record, policy) =>
    let r : KeyUser × Db := upsertKeyUser db record.keyName remotePubkey record.clientName
    let keyUser : KeyUser := r.1
    let db2 : Db := { r.2 with conds := r.2.conds ++ [⟨keyUser.id, "connect", none, some true⟩] }
    let db3 : Db := appendRuleConds keyUser.id db2 policy.rules
    let newTokens : List Token := db3.tokens.map fun t =>
      if t.id == record.id
        then { t with redeemedAt := some now, keyUserId := some keyUser.id }
        else t
    .ok { db3 with tokens := newTokens }

/-- A thrown redemption error leaves the caller's view of the store at the
pre-call state (the four checks precede every write). -/
def runApplyToken (db : Db) (now : Int) (remotePubkey token : String) :
    Db × Option String :=
  match applyToken db now remotePubkey token with
  | .ok db2 => (db2, none)
  | .error e => (db, some e)

/-! ## Authorization broker (`daemon/authorize.ts`) -/

/-- `serialiseParam`: a string payload is stored verbatim; an event is
stored as the JSON of its raw event. -/
def eventJson : Option Int → String
  | some k => "\x7b\"kind\":" ++ toString k ++ "\x7d"
  | none => "\x7b\x7d"

def serialiseParam : Option RpcPayload → Option String
  | none => none
  | some (RpcPayload.str s) => some s
  | some (RpcPayload.evt k) => some (eventJson k)

/-- `persistRequest`: create the pending-request row (`allowed` NULL,
`createdAt` now); its 60 s reaper is the separate `deleteRequest`. -/
def persistRequest (db : Db) (now : Int) (keyName : Option String)
    (requestId remotePubkey method : String) (payload : Option RpcPayload) :
    ReqRecord × Db :=
  let row : ReqRecord :=
    ⟨db.nextId, requestId, keyName, remotePubkey, method,
      serialiseParam payload, none, now, none⟩
  (row, { db with requests := db.requests ++ [row], nextId := db.nextId + 1 })

/-- The 60 s reaper: `prisma.request.delete` with errors swallowed. -/
def deleteRequest (db : Db) (id : Nat) : Db :=
  { db with requests := db.requests.filter (fun r => r.id ≠ id) }

/-- `baseUrl.replace(/\/+$/, '')`. -/
def stripTrailingSlashes (s : String) : String :=
  ⟨(s.data.reverse.dropWhile (· == '/')).reverse⟩

/-- The approval URL sent alongside the `auth_url` sentinel. -/
def buildRequestUrl (baseUrl requestId : String) : String :=
  stripTrailingSlashes baseUrl ++ "/requests/" ++ requestId

/-- What one fire of the 100 ms poll callback in `awaitWebDecision` does,
as a function of the observed row (`none` = the reaper deleted it). -/
inductive PollStepResult where
  | stopWithoutSettling
  | keepPolling
  | resolveWith (params : Option String)
  | rejectDenied
  deriving Repr, DecidableEq

def pollStep : Option ReqRecord → PollStepResult
  | none => .stopWithoutSettling
  | some row =>
    match row.allowed with
    | none => .keepPolling
    | some true => .resolveWith row.params
    | some false => .rejectDenied

/-- The fate of the promise returned by `awaitWebDecision` over a sequence
of poll observations. -/
inductive WebDecision where
  | resolved (params : Option String)
  | rejected
  | neverSettles
  | stillPolling
  deriving Repr, DecidableEq

/-- Run the poll loop over successive observations of the pending-request
row: `neverSettles` is the case where the callback clears the interval and
returns without resolving or rejecting. -/
def awaitWebDecisionRun : List (Option ReqRecord) → WebDecision
  | [] => .stillPolling
  | obs :: rest =>
    match pollStep obs with
    | .stopWithoutSettling => .neverSettles
    | .keepPolling => awaitWebDecisionRun rest
    | .resolveWith p => .resolved p
    | .rejectDenied => .rejected

/-- The protocol response `requestAuthorization` sends on the web path:
result is the sentinel `auth_url`, the URL rides along. -/
structure AuthUrlSend where
  requestId : String
  remotePubkey : String
  result : String
  url : String
  deriving Repr, DecidableEq

/-- The web (baseUrl) path of `requestAuthorization` up to the poll loop:
persist the pending request, send the `auth_url` response. -/
def requestAuthorizationWeb (db : Db) (now : Int) (baseUrl : String)
    (keyName : Option String) (remotePubkey requestId method : String)
    (payload : Option RpcPayload) : ReqRecord × Db × AuthUrlSend :=
  let r := persistRequest db now keyName requestId remotePubkey method payload
  (r.1, r.2, ⟨requestId, remotePubkey, "auth_url",
    buildRequestUrl baseUrl (toString r.1.id)⟩)

/-! ## Admin channel (`daemon/admin`) -/

/-- The result of `nip19.decode` when it does not throw. -/
structure Nip19Decoded where
  type : String
  data : String
  deriving Repr, DecidableEq

/-- `decodeNpubs`: entries that throw on decode (`none`) or decode to a
non-npub type are skipped silently. -/
def decodeNpubs (decode : String → Option Nip19Decoded) (npubs : List String) :
    List String :=
  npubs.filterMap fun npub =>
    match decode npub with
    | some d => if d.type == "npub" then some d.data else none
    | none => none

/-- An inbound admin RPC request (`NDKRpcRequest`): `pubkey` is `""` when
absent; `eventKind` is `req.event.kind`. -/
structure RpcReq where
  id : String
  pubkey : String
  method : String
  params : List String
  eventKind : Option Nat
  deriving Repr, DecidableEq

/-- `validateAdminRequest`. -/
def validateAdminRequest (decode : String → Option Nip19Decoded)
    (req : RpcReq) (allowedNpubs : List String) : Bool :=
  if req.pubkey == "" then false
  else (decodeNpubs decode allowedNpubs).contains req.pubkey

/-- A response published by `rpc.sendResponse`. -/
structure Resp where
  id : String
  dest : String
  result : String
  kind : Nat
  deriving Repr, DecidableEq

/-- The management RPC methods of the switch in `handleRpcRequest`. -/
def adminMethods : List String :=
  ["get_keys", "get_key_users", "rename_key_user", "get_key_tokens",
   "revoke_user", "create_new_key", "create_account", "ping", "unlock_key",
   "create_new_policy", "get_policies", "create_new_token"]

/-- `AdminInterface.handleRpcRequest`: the admin gate runs before the
switch; the bodies of the individual commands are an opaque parameter
`runCommand` (they are only reached once the gate has passed). -/
def handleRpcRequest (decode : String → Option Nip19Decoded)
    (runCommand : String → RpcReq → Db → Except String (Db × List Resp))
    (npubs : List String) (req : RpcReq) (db : Db) :
    Except String (Db × List Resp) :=
  if req.method ≠ "create_account" ∧ validateAdminRequest decode req npubs = false then
    .error "You are not authorised to perform this action"
  else if adminMethods.contains req.method then
    runCommand req.method req db
  else
    .ok (db, [⟨req.id, req.pubkey,
      "[\"error\",\"Unknown method " ++ req.method ++ "\"]",
      req.eventKind.getD 24134⟩])

/-- The `rpc.on('request', …)` wrapper: a thrown error is only debug
logged — the store is left as it was and no response is sent. -/
def onRpcRequest (decode : String → Option Nip19Decoded)
    (runCommand : String → RpcReq → Db → Except String (Db × List Resp))
    (npubs : List String) (req : RpcReq) (db : Db) : Db × List Resp :=
  match handleRpcRequest decode runCommand npubs req db with
  | .ok r => r
  | .error _ => (db, [])

/-! ## Heartbeat (`AdminInterface.startHeartbeat`) -/

/-- A relay event as far as the heartbeat is concerned. -/
structure NostrEventE where
  kind : Nat
  author : String
  pTags : List String
  content : String
  deriving Repr, DecidableEq

/-- The ping event published every 20 s: kind 24133 (`NostrConnect`),
authored by the admin key and p-tagged to itself. -/
def mkPingEvent (self : String) : NostrEventE :=
  ⟨24133, self, [self], "ping"⟩

/-- The watchdog's subscription filter. -/
structure SubFilter where
  authors : List String
  kinds : List Nat
  pTags : List String
  deriving Repr, DecidableEq

def heartbeatFilter (self : String) : SubFilter :=
  ⟨[self], [24133], [self]⟩

def matchesFilter (f : SubFilter) (e : NostrEventE) : Bool :=
  f.authors.contains e.author && f.kinds.contains e.kind &&
    e.pTags.any (fun p => f.pTags.contains p)

/-- `setInterval(…, 20_000)`: the k-th publish happens 20 s after the
previous one, the first 20 s after start. -/
def pingPublishTime (start k : Nat) : Nat := start + 20000 * (k + 1)

/-- The 50 s watchdog: `schedule()` arms a timer for `t + 50000`; an
observed event at `o` before the deadline re-arms it at `o`; the timer
firing calls `process.exit(1)`.  Returns the exit time over a
time-ordered list of observation times. -/
def hbExitTime : Nat → List Nat → Nat
  | t, [] => t + 50000
  | t, o :: rest => if o < t + 50000 then hbExitTime o rest else t + 50000

/-- The heartbeat run: exit time and exit status. -/
def heartbeatRun (start : Nat) (obs : List Nat) : Nat × Nat :=
  (hbExitTime start obs, 1)

/-! ## Vault (`config/keyring.ts`)

Byte strings are lists of naturals below 256.  AES-256-CBC and
PBKDF2-HMAC-SHA256 are external primitives: they enter as parameters
(`enc`, `dec`, `kdf`); the repository's own layer — per-secret salt, IV,
the `hex(salt ∥ ciphertext)` on-disk layout and its parsing — is embedded
from the source. -/

/-- The lowercase hex digit for a value below 16. -/
def hexDigitChar (d : Nat) : Char :=
  if d < 10 then Char.ofNat (48 + d) else Char.ofNat (87 + d)

def byteToHex (b : Nat) : List Char :=
  [hexDigitChar (b / 16 % 16), hexDigitChar (b % 16)]

/-- `buf.toString('hex')`. -/
def hexEncode (bs : List Nat) : String :=
  ⟨bs.foldr (fun b acc => byteToHex b ++ acc) []⟩

/-- `Buffer.from(s, 'hex')` consumes hex pairs and truncates at the first
invalid pair (Node semantics). -/
def hexPairsToBytes : List Char → List Nat
  | a :: b :: rest =>
    match hexDigitVal a, hexDigitVal b with
    | some ha, some hb => (ha * 16 + hb) :: hexPairsToBytes rest
    | _, _ => []
  | _ => []

def hexDecode (s : String) : List Nat := hexPairsToBytes s.data

/-- The `{iv, data}` vault entry. -/
structure EncryptedSecret where
  iv : String
  data : String
  deriving Repr, DecidableEq

/-- `encryptSecret`: derive the key from the passphrase and the fresh
salt, CBC-encrypt, store `hex(iv)` and `hex(salt ∥ ciphertext)`.
`salt` and `iv` stand for the two `randomBytes(16)` draws; the secret and
passphrase are their UTF-8 bytes. -/
def encryptSecret {K : Type} (kdf : List Nat → List Nat → K)
    (enc : K → List Nat → List Nat → List Nat)
    (salt iv secret passphrase : List Nat) : EncryptedSecret :=
  let key := kdf passphrase salt
  let encrypted := enc key iv secret
  ⟨hexEncode iv, hexEncode (salt ++ encrypted)⟩

/-- `decryptSecret`: split the first 16 bytes back off as the salt,
re-derive the key, CBC-decrypt (`none` models the decipher throwing). -/
def decryptSecret {K : Type} (kdf : List Nat → List Nat → K)
    (dec : K → List Nat → List Nat → Option (List Nat))
    (e : EncryptedSecret) (passphrase : List Nat) : Option (List Nat) :=
  let iv := hexDecode e.iv
  let combined := hexDecode e.data
  let salt := combined.take 16
  let encryptedData := combined.drop 16
  let key := kdf passphrase salt
  dec key iv encryptedData

/-! ## GET /requests rows (`daemon/run.ts`) -/

/-- A stored vault entry as the daemon's key map sees it. -/
structure StoredKeyE where
  iv : Option String
  data : Option String
  key : Option String
  deriving Repr, DecidableEq

/-- JS truthiness of an optional string. -/
def strTruthy : Option String → Bool
  | some v => v ≠ ""
  | none => false

/-- The derived `eventPreview` object. -/
structure EventPreview where
  kind : Option Json
  content : Option Json
  tags : Json

/-- The `eventPreview` computation of the GET /requests handler: parse the
stored `params` column as JSON, require an array with a truthy first
element, and project `kind`, `content`, `tags || []`; any parse failure
yields no preview. -/
def eventPreviewOf (method : String) (params : Option String) :
    Option EventPreview :=
  if method == "sign_event" && strTruthy params then
    match Json.parse (params.getD "") with
    | some (Json.arr (x :: _)) =>
      if x.truthy then
        some ⟨x.getField "kind", x.getField "content",
          (match x.getField "tags" with
           | some t => if t.truthy then t else Json.arr []
           | none => Json.arr [])⟩
      else none
    | _ => none
  else none

/-- One row of the GET /requests payload (ISO strings are represented by
their underlying millisecond timestamps). -/
structure RequestRow where
  id : Nat
  keyName : Option String
  method : String
  remotePubkey : String
  params : Option String
  eventPreview : Option EventPreview
  createdAtMs : Int
  expiresAtMs : Int
  ttlSeconds : Int
  requiresPassword : Bool
  processedAtMs : Option Int

/-- `Math.round(d / 1000)` for an integer millisecond count `d`
(JS rounds half toward positive infinity). -/
def msRoundToSeconds (d : Int) : Int := (d + 500).fdiv 1000

/-- The row map of the GET /requests handler. -/
def buildRequestRow (allKeys : String → Option StoredKeyE) (nowMillis : Int)
    (r : ReqRecord) : RequestRow :=
  let entry : Option StoredKeyE :=
    if strTruthy r.keyName then allKeys (r.keyName.getD "") else none
  let requiresPassword : Bool :=
    if strTruthy r.keyName then !(strTruthy (entry.bind (·.key))) else false
  let expiresAt : Int := r.createdAt + 60000
  { id := r.id
    keyName := r.keyName
    method := r.method
    remotePubkey := r.remotePubkey
    params := r.params
    eventPreview := eventPreviewOf r.method r.params
    createdAtMs := r.createdAt
    expiresAtMs := expiresAt
    ttlSeconds := max 0 (msRoundToSeconds (expiresAt - nowMillis))
    requiresPassword := requiresPassword
    processedAtMs := r.processedAt }

/-! ## Reachable policy-store states

Every mutation the daemon performs on the store, as an operation type.
The repository never deletes or rewrites a `SigningCondition` row, never
deletes a `KeyUser` row, and updates key users only through
`revokedAt`/`description` (revoke_user, rename_key_user, POST
/apps/:id/revoke, PATCH /apps/:id). -/
inductive StoreOp where
  | applyTok (now : Int) (remotePubkey token : String)
  | permitAll (remotePubkey keyName method : String)
      (description : Option String) (scope : Option AllowScope)
  | blockAll (remotePubkey keyName : String)
  | revokeKeyUser (id : Nat) (now : Int)
  | setKeyUserDescription (id : Nat) (description : String)
  | renameKeyUserByPubkey (pubkey description : String)
  | createToken (t : Token)
  | createPolicy (p : Policy)
  | createRequest (now : Int) (keyName : Option String)
      (requestId remotePubkey method : String) (payload : Option RpcPayload)
  | removeRequest (id : Nat)
  | decideRequest (id : Nat) (allowed : Bool) (now : Int)
  | setRequestParams (id : Nat) (params : String)
  | appendLog (row : LogRow)

/-- Semantics of each store mutation, from the corresponding source
site.  A thrown `applyToken` leaves the store unchanged. -/
def applyOp (db : Db) : StoreOp → Db
  | .applyTok now rp tok => (runApplyToken db now rp tok).1
  | .permitAll rp kn m d s => permitAllRequests db rp kn m d s
  | .blockAll rp kn => blockAllRequests db rp kn
  | .revokeKeyUser i now =>
    { db with keyUsers := db.keyUsers.map fun ku =>
        if ku.id = i then { ku with revokedAt := some now } else ku }
  | .setKeyUserDescription i d =>
    { db with keyUsers := db.keyUsers.map fun ku =>
        if ku.id = i then { ku with description := some d } else ku }
  | .renameKeyUserByPubkey pk d =>
    match db.keyUsers.find? (fun ku => ku.userPubkey == pk) with
    | some target =>
      { db with keyUsers := db.keyUsers.map fun ku =>
          if ku.id = target.id then { ku with description := some d } else ku }
    | none => db
  | .createToken t =>
    { db with tokens := db.tokens ++ [{ t with id := db.nextId }],
              nextId := db.nextId + 1 }
  | .createPolicy p =>
    { db with policies := db.policies ++ [{ p with id := db.nextId }],
              nextId := db.nextId + 1 }
  | .createRequest now kn rid rp m pl => (persistRequest db now kn rid rp m pl).2
  | .removeRequest i => deleteRequest db i
  | .decideRequest i allowed now =>
    { db with requests := db.requests.map fun r =>
        if r.id = i then { r with allowed := some allowed, processedAt := some now } else r }
  | .setRequestParams i ps =>
    { db with requests := db.requests.map fun r =>
        if r.id = i then { r with params := some ps } else r }
  | .appendLog row => { db with logs := db.logs ++ [row] }

/-- Run a sequence of store operations. -/
def applyOps (db : Db) (ops : List StoreOp) : Db := ops.foldl applyOp db

/-- The `(keyName, clientPubkey)` key user exists and carries a wildcard
veto row (`method='*', allowed=false`). -/
def HasVeto (db : Db) (keyName clientPubkey : String) : Prop :=
  ∃ ku ∈ db.keyUsers, ku.keyName = keyName ∧ ku.userPubkey = clientPubkey ∧
    ∃ sc ∈ db.conds, sc.keyUserId = ku.id ∧ sc.method = "*" ∧ sc.allowed = some false

/-- The schema's unique constraint on `(keyName, userPubkey)`. -/
def PairUnique (db : Db) : Prop :=
  db.keyUsers.Pairwise fun a b => a.keyName ≠ b.keyName ∨ a.userPubkey ≠ b.userPubkey

/-! ## A spec-side ACL evaluator (transcribed from the specification) -/

/-- The specification's kind set: `{"all"}` plus the extracted event kind
when the method is `sign_event`; no kind filter otherwise. -/
def specKindSet (method : String) (payload : Option RpcPayload) :
    Option (List String) :=
  if method = "sign_event" then
    some ("all" :: (match extractKind payload with
      | some k => [toString k]
      | none => []))
  else none

/-- The specification's condition match: same method, and — when a kind
filter applies — a stored kind inside the kind set. -/
def specCondMatch (keyUserId : Nat) (method : String) (ks : Option (List String))
    (sc : SigningCondition) : Bool :=
  sc.keyUserId == keyUserId && sc.method == method &&
    (match ks with
     | none => true
     | some l =>
       match sc.kind with
       | some v => l.contains v
       | none => false)

/-- The ACL algorithm exactly as the specification words it: unknown
without a key user; deny on any wildcard veto row; match method- and
(for `sign_event`) kind-scoped; unknown with no matching condition; deny a
revoked user's `allowed=true` match; otherwise the match's `allowed`. -/
def evaluateSpec (db : Db) (keyName clientPubkey method : String)
    (payload : Option RpcPayload) : Option Bool :=
  match findKeyUser db keyName clientPubkey with
  | none => none
  | some keyUser =>
    if db.conds.any (isVetoRow keyUser.id) then some false
    else
      match db.conds.find?
          (specCondMatch keyUser.id method (specKindSet method payload)) with
      | none => none
      | some cond =>
        if cond.allowed = some true ∧ keyUser.revokedAt.isSome then some false
        else cond.allowed

/-! ## A concrete cipher and key derivation for witnesses

The vault theorems are parametric in the external primitives; these toy
instances witness that their hypotheses are satisfiable. -/

/-- Toy key derivation: an injective encoding of the passphrase. -/
def toyKdf (pw _salt : List Nat) : Nat := Encodable.encode pw

/-- Toy cipher: a unary key tag followed by a zero marker and the
plaintext. -/
def toyEnc (k : Nat) (_iv p : List Nat) : List Nat :=
  List.replicate k 1 ++ 0 :: p

/-- Toy decryption: strip and check the key tag, failing on mismatch. -/
def toyDec (k : Nat) (_iv c : List Nat) : Option (List Nat) :=
  if c.take k = List.replicate k 1 ∧ c.get? k = some 0 then some (c.drop (k + 1))
  else none

/-- The empty store. -/
def emptyDb : Db := ⟨[], [], [], [], [], [], 0⟩

/-- The state the C3 claim describes after a successful redemption: key
user upserted, then the `connect` condition, then one condition per policy
rule in rule order, then the token row marked redeemed (`redeemedAt` and
`keyUserId` set). -/
def redeemedState (db : Db) (now : Int) (rp : String) (t : Token)
    (policy : Policy) : Db :=
  let r := upsertKeyUser db t.keyName rp t.clientName
  { r.2 with
    conds := r.2.conds ++
      (⟨r.1.id, "connect", none, some true⟩ :: policy.rules.map (ruleCond r.1.id)),
    tokens := r.2.tokens.map fun tk =>
      if tk.id == t.id
        then { tk with redeemedAt := some now, keyUserId := some r.1.id }
        else tk }

/-- A byte string: every entry below 256. -/
def ByteStr (bs : List Nat) : Prop := ∀ b ∈ bs, b < 256

/-- What `persistRequest` stores for a `sign_event` request: the bare
event JSON object (the first parameter itself, not a parameter array). -/
def orphanEventParams : String :=
  "\x7b\"kind\":1,\"content\":\"hi\",\"tags\":[]\x7d"

/-- The array-shaped params column the GET /requests preview logic
expects. -/
def arrayEventParams : String :=
  "[\x7b\"kind\":1,\"content\":\"hi\",\"tags\":[]\x7d]"

/-- A two-rule policy for concrete witnesses. -/
def witPolicy : Policy := ⟨2, [⟨"sign_event", some 1⟩, ⟨"encrypt", none⟩]⟩

/-- A fresh (unredeemed, unexpiring) token over `witPolicy`. -/
def witToken : Token := ⟨1, "tok", "mykey", some "client app", some 2, none, none, none⟩

/-- A store holding just `witToken` and `witPolicy`. -/
def witDb : Db := ⟨[], [], [witToken], [witPolicy], [], [], 10⟩

/-- An already-redeemed token. -/
def redeemedTok : Token := ⟨1, "tok2", "mykey", none, some 2, none, some 500, some 7⟩

/-- A store holding just `redeemedTok` and `witPolicy`. -/
def dbRedeemed : Db := ⟨[], [], [redeemedTok], [witPolicy], [], [], 10⟩

/-! ## Helper lemmas -/

theorem find?_ext {α : Type} (l : List α) (p q : α → Bool) (h : ∀ a, p a = q a) :
    l.find? p = l.find? q := by
  have : p = q := funext h
  rw [this]

theorem decodeNpubs_mem (decode : String → Option Nip19Decoded)
    (npubs : List String) (x : String) :
    x ∈ decodeNpubs decode npubs ↔ ∃ e ∈ npubs, decode e = some ⟨"npub", x⟩ := by
  unfold decodeNpubs
  rw [List.mem_filterMap]
  constructor
  · rintro ⟨e, he, hf⟩
    refine ⟨e, he, ?_⟩
    cases hd : decode e with
    | none => rw [hd] at hf; simp at hf
    | some d =>
      rw [hd] at hf
      by_cases ht : d.type == "npub"
      · simp [ht] at hf
        cases d
        simp_all
      · simp [ht] at hf
  · rintro ⟨e, he, hd⟩
    exact ⟨e, he, by simp [hd]⟩

/-- Claim C10: `validateAdminRequest` authorises exactly a non-empty
requester pubkey equal to the decoding of some allow-list entry that is a
syntactically valid npub; entries failing to decode, or decoding to a
non-npub type, are skipped silently and never authorise anyone. -/
theorem validateAdminRequest_characterised
    (decode : String → Option Nip19Decoded) (req : RpcReq) (npubs : List String) :
    (validateAdminRequest decode req npubs = true ↔
      req.pubkey ≠ "" ∧ ∃ e ∈ npubs, decode e = some ⟨"npub", req.pubkey⟩)
    ∧ ∀ x, x ∈ decodeNpubs decode npubs ↔ ∃ e ∈ npubs, decode e = some ⟨"npub", x⟩ := by
  refine ⟨?_, decodeNpubs_mem decode npubs⟩
  unfold validateAdminRequest
  by_cases hp : req.pubkey == ""
  · simp [hp]
    intro h
    exact absurd (beq_iff_eq.mp hp) h
  · rw [if_neg (by simp [hp])]
    rw [List.elem_iff, decodeNpubs_mem]
    have hne : req.pubkey ≠ "" := by
      intro h
      exact hp (beq_iff_eq.mpr h)
    simp [hne]

/-- Claim C5 (amended): an admin RPC other than `create_account` from a
requester the allow-list does not validate performs zero store writes, and
no response of any kind is sent (the thrown error is only logged). -/
theorem admin_gate_unauthorized (decode : String → Option Nip19Decoded)
    (runCommand : String → RpcReq → Db → Except String (Db × List Resp))
    (npubs : List String) (req : RpcReq) (db : Db)
    (hm : req.method ≠ "create_account")
    (hv : validateAdminRequest decode req npubs = false) :
    onRpcRequest decode runCommand npubs req db = (db, []) := by
  unfold onRpcRequest handleRpcRequest
  simp [hm, hv]

/-- Witness for claim C5: a `get_keys` request from a pubkey outside the
allow-list leaves the store untouched and sends nothing. -/
theorem admin_gate_unauthorized_witness :
    onRpcRequest (fun _ => none) (fun _ _ db => .ok (db, [⟨"r", "d", "ok", 24134⟩]))
      ["npub1admin"] ⟨"rid1", "attacker", "get_keys", [], some 24133⟩ emptyDb
      = (emptyDb, []) :=
  admin_gate_unauthorized _ _ _ _ _ (by decide) (by decide)

/-- Counterexample for claim C5 as frozen: at the same unauthorized
`get_keys` request the handler sends no response at all — the requester
does not receive an error response (the response list is empty). -/
theorem admin_gate_no_error_response :
    (onRpcRequest (fun _ => none) (fun _ _ db => .ok (db, [⟨"r", "d", "ok", 24134⟩]))
      ["npub1admin"] ⟨"rid2", "attacker", "revoke_user", ["1"], some 24133⟩ emptyDb).2
      = [] := by
  decide

/-- Claim C4: at the failing input — the reaper has deleted the
pending-request row while `allowed` was still NULL — the poll callback
clears its interval and returns, so the promise neither resolves nor
rejects; the `auth_url` response itself is sent as specified beforehand. -/
theorem awaitWebDecision_timeout_never_settles :
    awaitWebDecisionRun
        [some ⟨0, "rid", some "mykey", "client", "sign_event", none, none, 0, none⟩, none]
      = WebDecision.neverSettles
    ∧ (requestAuthorizationWeb emptyDb 0 "https://bunker.example/" (some "mykey")
        "client" "rid" "sign_event" none).2.2
      = ⟨"rid", "client", "auth_url", "https://bunker.example/requests/0"⟩ := by
  exact ⟨rfl, by decide⟩

theorem condQuery_eq_specCondMatch (ku : KeyUser) (method : String)
    (payload : Option RpcPayload) (sc : SigningCondition) :
    (sc.keyUserId == ku.id && condMatchesQuery (buildConditionQuery method payload) sc)
      = specCondMatch ku.id method (specKindSet method payload) sc := by
  by_cases hm : method = "sign_event"
  · subst hm
    cases hek : extractKind payload <;>
      cases hk : sc.kind <;>
        simp [buildConditionQuery, condMatchesQuery, specKindSet, specCondMatch,
          hek, hk, Bool.and_assoc]
  · simp [buildConditionQuery, condMatchesQuery, specKindSet, specCondMatch,
      hm, Bool.and_assoc]

/-- Claim C2: the ACL evaluator agrees pointwise with the specification's
algorithm — unknown without a key user; (modulo the C1 veto) a condition
matched on method, with the kind compared against `{"all"}` plus the
parsed event kind only for `sign_event`; unknown with no match; deny on a
revoked user's `allowed=true` match; otherwise the match's `allowed`. -/
theorem isRequestPermitted_matches_spec (db : Db)
    (keyName clientPubkey method : String) (payload : Option RpcPayload) :
    isRequestPermitted db keyName clientPubkey method payload
      = evaluateSpec db keyName clientPubkey method payload := by
  unfold isRequestPermitted evaluateSpec
  cases hku : findKeyUser db keyName clientPubkey with
  | none => rfl
  | some ku =>
    cases hv : db.conds.find? (isVetoRow ku.id) with
    | some sc =>
      have hany : db.conds.any (isVetoRow ku.id) = true :=
        List.any_eq_true.mpr ⟨sc, List.mem_of_find?_eq_some hv, List.find?_some hv⟩
      simp [hv, hany]
    | none =>
      have hany : db.conds.any (isVetoRow ku.id) = false := by
        rw [List.any_eq_false]
        intro x hx
        simp [List.find?_eq_none.mp hv x hx]
      have hfind :
          db.conds.find? (fun sc =>
            sc.keyUserId == ku.id && condMatchesQuery (buildConditionQuery method payload) sc)
          = db.conds.find? (specCondMatch ku.id method (specKindSet method payload)) :=
        find?_ext _ _ _ (condQuery_eq_specCondMatch ku method payload)
      simp only [hv, hany, hfind, Bool.false_eq_true, if_false]
      cases hc : db.conds.find? (specCondMatch ku.id method (specKindSet method payload)) with
      | none => simp
      | some cond =>
        simp only []
        cases hca : cond.allowed with
        | none => cases hrv : ku.revokedAt <;> simp [hca, hrv]
        | some b => cases b <;> cases hrv : ku.revokedAt <;> simp [hca, hrv]

theorem appendRuleConds_step (kid : Nat) (db : Db) (r : PolicyRule)
    (rs : List PolicyRule) :
    appendRuleConds kid db (r :: rs)
      = appendRuleConds kid { db with conds := db.conds ++ [ruleCond kid r] } rs := rfl

theorem appendRuleConds_spec (kid : Nat) (rules : List PolicyRule) :
    ∀ db : Db, appendRuleConds kid db rules
      = { db with conds := db.conds ++ rules.map (ruleCond kid) } := by
  induction rules with
  | nil => intro db; simp [appendRuleConds]
  | cons r rs ih =>
    intro db
    rw [appendRuleConds_step, ih]
    simp

/-- Claim C3: redemption fails exactly on a missing, already-redeemed,
policy-less or expired token, a failure leaves the store untouched, and a
success produces precisely the ordered writes of the claim. -/
theorem applyToken_transactional (db : Db) (now : Int) (rp tok : String) :
    ((runApplyToken db now rp tok).2.isSome → (runApplyToken db now rp tok).1 = db)
    ∧ ((runApplyToken db now rp tok).2.isSome ↔
        findToken db tok = none
        ∨ (∃ t, findToken db tok = some t ∧ t.redeemedAt.isSome)
        ∨ (∃ t, findToken db tok = some t ∧ t.redeemedAt = none
            ∧ t.policyId.bind (findPolicy db) = none)
        ∨ (∃ t e, findToken db tok = some t ∧ t.redeemedAt = none
            ∧ (t.policyId.bind (findPolicy db)).isSome
            ∧ t.expiresAt = some e ∧ e < now))
    ∧ (∀ t policy, fetchValidToken db now tok = .ok (t, policy) →
        runApplyToken db now rp tok = (redeemedState db now rp t policy, none)) := by
  refine ⟨?_, ?_, ?_⟩
  · unfold runApplyToken
    cases h : applyToken db now rp tok <;> simp
  · unfold runApplyToken applyToken fetchValidToken
    cases hft : findToken db tok with
    | none => simp [hft]
    | some t =>
      by_cases hr : t.redeemedAt.isSome
      · simp [hft, hr]
      · have hrn : t.redeemedAt = none := Option.not_isSome_iff_eq_none.mp hr
        cases hpb : t.policyId.bind (findPolicy db) with
        | none =>
          simp [hft, hr, hrn, hpb]
          intro a ha
          rw [ha] at hpb
          simpa using hpb
        | some policy =>
          have hpid : ∃ x, t.policyId = some x ∧ ¬findPolicy db x = none := by
            cases hpi : t.policyId with
            | none => rw [hpi] at hpb; simp at hpb
            | some pid =>
              rw [hpi] at hpb
              simp at hpb
              exact ⟨pid, rfl, by simp [hpb]⟩
          cases hex : t.expiresAt with
          | none => simpa [hft, hr, hrn, hpb, hex] using hpid
          | some e =>
            by_cases he : e < now
            · simp [hft, hr, hrn, hpb, hex, he]
            · simpa [hft, hr, hrn, hpb, hex, he] using hpid
  · intro t policy hf
    have happ : applyToken db now rp tok = .ok (redeemedState db now rp t policy) := by
      unfold applyToken
      rw [hf]
      simp only [appendRuleConds_spec]
      unfold redeemedState
      simp [List.append_assoc]
    unfold runApplyToken
    rw [happ]

/-- Witness for claim C3: a fresh token over a two-rule policy redeems
into exactly the described ordered writes. -/
theorem applyToken_transactional_witness :
    runApplyToken witDb 1000 "clientpk" "tok"
      = (redeemedState witDb 1000 "clientpk" witToken witPolicy, none) :=
  (applyToken_transactional witDb 1000 "clientpk" "tok").2.2 witToken witPolicy (by rfl)

/-- Claim C7: a token whose `redeemedAt` is set fails redemption with the
already-redeemed error and the store — key users, conditions, the token
row itself — is left exactly as it was. -/
theorem token_one_shot (db : Db) (now : Int) (rp tok : String) (t : Token)
    (hft : findToken db tok = some t) (hred : t.redeemedAt.isSome) :
    runApplyToken db now rp tok = (db, some "Token already redeemed") := by
  unfold runApplyToken applyToken fetchValidToken
  simp [hft, hred]

/-- Witness for claim C7: re-redeeming a redeemed token changes nothing
and reports the already-redeemed failure. -/
theorem token_one_shot_witness :
    runApplyToken dbRedeemed 1000 "clientpk" "tok2"
      = (dbRedeemed, some "Token already redeemed") :=
  token_one_shot dbRedeemed 1000 "clientpk" "tok2" redeemedTok (by rfl) (by rfl)

theorem hexDigitVal_hexDigitChar (d : Nat) (hd : d < 16) :
    hexDigitVal (hexDigitChar d) = some d := by
  interval_cases d <;> decide

theorem hexPairsToBytes_cons (b : Nat) (hb : b < 256) (cs : List Char) :
    hexPairsToBytes (byteToHex b ++ cs) = b :: hexPairsToBytes cs := by
  have h1 : b / 16 % 16 < 16 := Nat.mod_lt _ (by norm_num)
  have h2 : b % 16 < 16 := Nat.mod_lt _ (by norm_num)
  show hexPairsToBytes
      (hexDigitChar (b / 16 % 16) :: hexDigitChar (b % 16) :: cs) = _
  rw [hexPairsToBytes, hexDigitVal_hexDigitChar _ h1, hexDigitVal_hexDigitChar _ h2]
  have h3 : b / 16 % 16 = b / 16 := Nat.mod_eq_of_lt (by omega)
  rw [h3]
  show (b / 16 * 16 + b % 16) :: hexPairsToBytes cs = b :: hexPairsToBytes cs
  have h4 : b / 16 * 16 + b % 16 = b := by omega
  rw [h4]

theorem hexDecode_hexEncode (bs : List Nat) (h : ByteStr bs) :
    hexDecode (hexEncode bs) = bs := by
  induction bs with
  | nil => rfl
  | cons b rest ih =>
    have hb : b < 256 := h b (List.mem_cons_self _ _)
    have hrest : ByteStr rest := fun x hx => h x (List.mem_cons_of_mem _ hx)
    show hexPairsToBytes (byteToHex b ++ rest.foldr (fun x acc => byteToHex x ++ acc) [])
      = b :: rest
    rw [hexPairsToBytes_cons b hb]
    exact congrArg (b :: ·) (ih hrest)

/-- Claim C6: with the external primitives satisfying the standard cipher
laws — decryption with the right key inverts encryption, decryption with a
different key fails, distinct passphrases derive distinct keys, ciphertext
is bytes — the vault's `decryptSecret ∘ encryptSecret` recovers every
plaintext under the same passphrase, and fails under every different
passphrase. -/
theorem vault_round_trip {K : Type} (kdf : List Nat → List Nat → K)
    (enc : K → List Nat → List Nat → List Nat)
    (dec : K → List Nat → List Nat → Option (List Nat))
    (hInv : ∀ k iv p, dec k iv (enc k iv p) = some p)
    (hRej : ∀ k k2 iv p, k ≠ k2 → dec k2 iv (enc k iv p) = none)
    (hKdf : ∀ salt pw pw2, pw ≠ pw2 → kdf pw salt ≠ kdf pw2 salt)
    (hEncB : ∀ k iv p, ByteStr p → ByteStr (enc k iv p))
    (salt iv secret pw pw2 : List Nat)
    (hsalt : salt.length = 16) (hsaltB : ByteStr salt)
    (hivB : ByteStr iv) (hsecB : ByteStr secret) :
    decryptSecret kdf dec (encryptSecret kdf enc salt iv secret pw) pw = some secret
    ∧ (pw2 ≠ pw →
        decryptSecret kdf dec (encryptSecret kdf enc salt iv secret pw) pw2 = none) := by
  have hcomb : hexDecode (hexEncode (salt ++ enc (kdf pw salt) iv secret))
      = salt ++ enc (kdf pw salt) iv secret := by
    apply hexDecode_hexEncode
    intro b hb
    rcases List.mem_append.mp hb with hmem | hmem
    exacts [hsaltB b hmem, hEncB _ iv secret hsecB b hmem]
  have hiv : hexDecode (hexEncode iv) = iv := hexDecode_hexEncode iv hivB
  have htake : (salt ++ enc (kdf pw salt) iv secret).take 16 = salt := by
    rw [← hsalt]; exact List.take_left _ _
  have hdrop : (salt ++ enc (kdf pw salt) iv secret).drop 16
      = enc (kdf pw salt) iv secret := by
    rw [← hsalt]; exact List.drop_left _ _
  constructor
  · unfold decryptSecret encryptSecret
    simp only [hcomb, hiv, htake, hdrop]
    exact hInv _ _ _
  · intro hne
    unfold decryptSecret encryptSecret
    simp only [hcomb, hiv, htake, hdrop]
    exact hRej _ _ _ _ (hKdf salt pw pw2 (Ne.symm hne))

theorem toyDec_toyEnc (k : Nat) (iv p : List Nat) :
    toyDec k iv (toyEnc k iv p) = some p := by
  unfold toyDec toyEnc
  have htake : (List.replicate k 1 ++ 0 :: p).take k = List.replicate k 1 := by
    have := List.take_left (List.replicate k 1) (0 :: p)
    simpa using this
  have hget : (List.replicate k 1 ++ 0 :: p).get? k = some 0 := by
    have hlen : (List.replicate k 1).length ≤ k := by simp
    rw [List.get?_append_right hlen]
    simp
  rw [if_pos ⟨htake, hget⟩]
  have hdk : (List.replicate k 1 ++ 0 :: p).drop k = 0 :: p := by
    have := List.drop_left (List.replicate k 1) (0 :: p)
    simpa using this
  have : (List.replicate k 1 ++ 0 :: p).drop (k + 1)
      = ((List.replicate k 1 ++ 0 :: p).drop k).drop 1 := by
    rw [List.drop_drop]
  rw [this, hdk]
  rfl

theorem toyDec_wrong_key (k k2 : Nat) (iv p : List Nat) (hne : k ≠ k2) :
    toyDec k2 iv (toyEnc k iv p) = none := by
  unfold toyDec toyEnc
  rw [if_neg]
  rintro ⟨htake, hget⟩
  rcases Nat.lt_or_ge k2 k with hlt | hge
  · have h1 : (List.replicate k 1 ++ 0 :: p).get? k2 = some 1 := by
      rw [List.get?_append (by simpa using hlt)]
      simp [List.get?_eq_getElem?, List.getElem?_replicate, hlt]
    rw [h1] at hget
    simp at hget
  · have hk2 : k < k2 := lt_of_le_of_ne hge hne
    have h0 : (List.replicate k 1 ++ 0 :: p).get? k = some 0 := by
      have hlen : (List.replicate k 1).length ≤ k := by simp
      rw [List.get?_append_right hlen]
      simp
    have h1 : ((List.replicate k 1 ++ 0 :: p).take k2).get? k = some 0 := by
      rw [List.get?_take hk2]
      exact h0
    rw [htake] at h1
    simp [List.get?_eq_getElem?, List.getElem?_replicate, hk2] at h1

theorem toyEnc_bytes (k : Nat) (iv p : List Nat) (hp : ByteStr p) :
    ByteStr (toyEnc k iv p) := by
  intro b hb
  unfold toyEnc at hb
  rcases List.mem_append.mp hb with hmem | hmem
  · have := List.eq_of_mem_replicate hmem
    omega
  · rcases List.mem_cons.mp hmem with rfl | h2
    · omega
    · exact hp b h2

theorem toyKdf_inj (salt pw pw2 : List Nat) (h : pw ≠ pw2) :
    toyKdf pw salt ≠ toyKdf pw2 salt := by
  unfold toyKdf
  intro hEq
  exact h (Encodable.encode_injective hEq)

/-- Witness for claim C6: a concrete secret round-trips under the right
passphrase and fails under a different one, with the toy primitives. -/
theorem vault_round_trip_witness :
    decryptSecret toyKdf toyDec
        (encryptSecret toyKdf toyEnc (List.replicate 16 7) (List.replicate 16 9)
          [104, 105] [97]) [97]
      = some [104, 105]
    ∧ (([98] : List Nat) ≠ [97] →
        decryptSecret toyKdf toyDec
          (encryptSecret toyKdf toyEnc (List.replicate 16 7) (List.replicate 16 9)
            [104, 105] [97]) [98]
        = none) :=
  vault_round_trip toyKdf toyEnc toyDec toyDec_toyEnc toyDec_wrong_key toyKdf_inj
    toyEnc_bytes (List.replicate 16 7) (List.replicate 16 9) [104, 105] [97] [98]
    (by decide) (by unfold ByteStr; decide) (by unfold ByteStr; decide)
    (by unfold ByteStr; decide)

theorem pairUnique_elem_eq :
    ∀ l : List KeyUser,
      (l.Pairwise fun a b => a.keyName ≠ b.keyName ∨ a.userPubkey ≠ b.userPubkey) →
      ∀ a b : KeyUser, a ∈ l → b ∈ l →
        a.keyName = b.keyName → a.userPubkey = b.userPubkey → a = b := by
  intro l
  induction l with
  | nil => intro _ a b ha; cases ha
  | cons x xs ih =>
    intro h a b ha hb hk hu
    rcases List.pairwise_cons.mp h with ⟨hx, hxs⟩
    rcases List.mem_cons.mp ha with rfl | ha2
    · rcases List.mem_cons.mp hb with rfl | hb2
      · rfl
      · rcases hx b hb2 with h1 | h1
        exacts [absurd hk h1, absurd hu h1]
    · rcases List.mem_cons.mp hb with rfl | hb2
      · rcases hx a ha2 with h1 | h1
        exacts [absurd hk.symm h1, absurd hu.symm h1]
      · exact ih hxs a b ha2 hb2 hk hu

theorem hasVeto_denies (db : Db) (k c m : String) (p : Option RpcPayload)
    (hwf : PairUnique db) (hv : HasVeto db k c) :
    isRequestPermitted db k c m p = some false := by
  obtain ⟨ku, hkuMem, hkn, hup, sc, hscMem, hscKu, hscM, hscA⟩ := hv
  have hfind : findKeyUser db k c = some ku := by
    cases hf : findKeyUser db k c with
    | none =>
      have hne := List.find?_eq_none.mp hf ku hkuMem
      simp [hkn, hup] at hne
    | some ku0 =>
      have hmem0 := List.mem_of_find?_eq_some hf
      have hpred0 := List.find?_some hf
      simp only [Bool.and_eq_true, beq_iff_eq] at hpred0
      have heq : ku0 = ku :=
        pairUnique_elem_eq db.keyUsers hwf ku0 ku hmem0 hkuMem
          (hpred0.1.trans hkn.symm) (hpred0.2.trans hup.symm)
      rw [heq]
  unfold isRequestPermitted
  rw [hfind]
  have hvs : db.conds.find? (isVetoRow ku.id) ≠ none := by
    intro hnone
    have := List.find?_eq_none.mp hnone sc hscMem
    simp [isVetoRow, hscKu, hscM, hscA] at this
  cases hvv : db.conds.find? (isVetoRow ku.id) with
  | none => exact absurd hvv hvs
  | some x => simp [hvv]

theorem hasVeto_mono {db db2 : Db} {k c : String}
    (hU : ∀ ku ∈ db.keyUsers, ∃ ku2 ∈ db2.keyUsers,
        ku2.id = ku.id ∧ ku2.keyName = ku.keyName ∧ ku2.userPubkey = ku.userPubkey)
    (hC : ∀ sc ∈ db.conds, sc ∈ db2.conds) :
    HasVeto db k c → HasVeto db2 k c := by
  rintro ⟨ku, hm, hk, hu, sc, hsm, h1, h2, h3⟩
  obtain ⟨ku2, hm2, hid, hk2, hu2⟩ := hU ku hm
  exact ⟨ku2, hm2, hk2.trans hk, hu2.trans hu, sc, hC sc hsm,
    h1.trans hid.symm, h2, h3⟩

theorem upsertKeyUser_conds (db : Db) (kn up : String) (d : Option String) :
    (upsertKeyUser db kn up d).2.conds = db.conds := by
  unfold upsertKeyUser
  cases hf : findKeyUser db kn up <;> rfl

theorem upsertKeyUser_keyUsers_mono (db : Db) (kn up : String) (d : Option String) :
    ∀ ku ∈ db.keyUsers, ku ∈ (upsertKeyUser db kn up d).2.keyUsers := by
  unfold upsertKeyUser
  cases hf : findKeyUser db kn up with
  | some ku0 => exact fun ku h => h
  | none => exact fun ku h => List.mem_append_left _ h

theorem upsertKeyUser_fst_mem (db : Db) (kn up : String) (d : Option String) :
    (upsertKeyUser db kn up d).1 ∈ (upsertKeyUser db kn up d).2.keyUsers := by
  unfold upsertKeyUser
  cases hf : findKeyUser db kn up with
  | some ku0 => exact List.mem_of_find?_eq_some hf
  | none => exact List.mem_append_right _ (by simp)

theorem upsertKeyUser_fst_pair (db : Db) (kn up : String) (d : Option String) :
    (upsertKeyUser db kn up d).1.keyName = kn
    ∧ (upsertKeyUser db kn up d).1.userPubkey = up := by
  unfold upsertKeyUser
  cases hf : findKeyUser db kn up with
  | some ku0 =>
    have hpred := List.find?_some hf
    simp only [Bool.and_eq_true, beq_iff_eq] at hpred
    exact hpred
  | none => exact ⟨rfl, rfl⟩

theorem upsertKeyUser_pairUnique (db : Db) (kn up : String) (d : Option String)
    (hp : PairUnique db) : PairUnique (upsertKeyUser db kn up d).2 := by
  unfold upsertKeyUser
  cases hf : findKeyUser db kn up with
  | some ku0 => exact hp
  | none =>
    unfold PairUnique at *
    show (db.keyUsers ++ [(⟨db.nextId, kn, up, d, none⟩ : KeyUser)]).Pairwise _
    rw [List.pairwise_append]
    refine ⟨hp, List.pairwise_singleton _ _, ?_⟩
    intro a ha b hb
    rw [List.mem_singleton] at hb
    subst hb
    have hnp := List.find?_eq_none.mp hf a ha
    simp only [Bool.and_eq_true, beq_iff_eq, not_and] at hnp
    by_cases h1 : a.keyName = kn
    · exact Or.inr fun h2 => hnp h1 h2
    · exact Or.inl h1

theorem applyToken_ok_of_fetch (db : Db) (now : Int) (rp tok : String)
    (t : Token) (policy : Policy)
    (hf : fetchValidToken db now tok = .ok (t, policy)) :
    applyToken db now rp tok = .ok (redeemedState db now rp t policy) := by
  unfold applyToken
  rw [hf]
  simp only [appendRuleConds_spec]
  unfold redeemedState
  simp [List.append_assoc]

theorem mapUpdate_mono (l : List KeyUser) (f : KeyUser → KeyUser)
    (hf : ∀ ku, (f ku).id = ku.id ∧ (f ku).keyName = ku.keyName
      ∧ (f ku).userPubkey = ku.userPubkey) :
    ∀ ku ∈ l, ∃ ku2 ∈ l.map f,
      ku2.id = ku.id ∧ ku2.keyName = ku.keyName ∧ ku2.userPubkey = ku.userPubkey :=
  fun ku h => ⟨f ku, List.mem_map_of_mem f h, (hf ku).1, (hf ku).2.1, (hf ku).2.2⟩

theorem mapUpdate_pairUnique (l : List KeyUser) (f : KeyUser → KeyUser)
    (hf : ∀ ku, (f ku).keyName = ku.keyName ∧ (f ku).userPubkey = ku.userPubkey)
    (hp : l.Pairwise fun a b => a.keyName ≠ b.keyName ∨ a.userPubkey ≠ b.userPubkey) :
    (l.map f).Pairwise fun a b => a.keyName ≠ b.keyName ∨ a.userPubkey ≠ b.userPubkey := by
  refine List.Pairwise.map f ?_ hp
  intro a b hab
  rcases hab with h | h
  · exact Or.inl (by rw [(hf a).1, (hf b).1]; exact h)
  · exact Or.inr (by rw [(hf a).2, (hf b).2]; exact h)

theorem runApplyToken_fst_facts (db : Db) (now : Int) (rp tok : String) :
    (∀ ku ∈ db.keyUsers, ku ∈ (runApplyToken db now rp tok).1.keyUsers)
    ∧ (∀ sc ∈ db.conds, sc ∈ (runApplyToken db now rp tok).1.conds)
    ∧ (PairUnique db → PairUnique (runApplyToken db now rp tok).1) := by
  cases hf : fetchValidToken db now tok with
  | error e =>
    have herr : applyToken db now rp tok = .error e := by
      unfold applyToken
      rw [hf]
    unfold runApplyToken
    rw [herr]
    exact ⟨fun _ h => h, fun _ h => h, fun h => h⟩
  | ok tp =>
    obtain ⟨t, policy⟩ := tp
    have happ := applyToken_ok_of_fetch db now rp tok t policy hf
    unfold runApplyToken
    rw [happ]
    refine ⟨?_, ?_, ?_⟩
    · intro ku h
      show ku ∈ (upsertKeyUser db t.keyName rp t.clientName).2.keyUsers
      exact upsertKeyUser_keyUsers_mono db t.keyName rp t.clientName ku h
    · intro sc h
      show sc ∈ (upsertKeyUser db t.keyName rp t.clientName).2.conds ++ _
      exact List.mem_append_left _
        ((upsertKeyUser_conds db t.keyName rp t.clientName).symm ▸ h)
    · intro hp
      exact upsertKeyUser_pairUnique db t.keyName rp t.clientName hp

theorem applyOp_preserves (db : Db) (op : StoreOp) :
    (∀ ku ∈ db.keyUsers, ∃ ku2 ∈ (applyOp db op).keyUsers,
        ku2.id = ku.id ∧ ku2.keyName = ku.keyName ∧ ku2.userPubkey = ku.userPubkey)
    ∧ (∀ sc ∈ db.conds, sc ∈ (applyOp db op).conds)
    ∧ (PairUnique db → PairUnique (applyOp db op)) := by
  cases op with
  | applyTok now rp tok =>
    obtain ⟨h1, h2, h3⟩ := runApplyToken_fst_facts db now rp tok
    exact ⟨fun ku h => ⟨ku, h1 ku h, rfl, rfl, rfl⟩, h2, h3⟩
  | permitAll rp kn m d s =>
    refine ⟨fun ku h => ⟨ku, ?_, rfl, rfl, rfl⟩, fun sc h => ?_, fun hp => ?_⟩
    · show ku ∈ (upsertKeyUser db kn rp d).2.keyUsers
      exact upsertKeyUser_keyUsers_mono db kn rp d ku h
    · show sc ∈ (upsertKeyUser db kn rp d).2.conds ++ _
      exact List.mem_append_left _ ((upsertKeyUser_conds db kn rp d).symm ▸ h)
    · exact upsertKeyUser_pairUnique db kn rp d hp
  | blockAll rp kn =>
    refine ⟨fun ku h => ⟨ku, ?_, rfl, rfl, rfl⟩, fun sc h => ?_, fun hp => ?_⟩
    · show ku ∈ (upsertKeyUser db kn rp none).2.keyUsers
      exact upsertKeyUser_keyUsers_mono db kn rp none ku h
    · show sc ∈ (upsertKeyUser db kn rp none).2.conds ++ _
      exact List.mem_append_left _ ((upsertKeyUser_conds db kn rp none).symm ▸ h)
    · exact upsertKeyUser_pairUnique db kn rp none hp
  | revokeKeyUser i now =>
    refine ⟨mapUpdate_mono _ _ ?_, fun sc h => h, fun hp => mapUpdate_pairUnique _ _ ?_ hp⟩
    · intro ku; by_cases h : ku.id = i <;> simp [h]
    · intro ku; by_cases h : ku.id = i <;> simp [h]
  | setKeyUserDescription i d =>
    refine ⟨mapUpdate_mono _ _ ?_, fun sc h => h, fun hp => mapUpdate_pairUnique _ _ ?_ hp⟩
    · intro ku; by_cases h : ku.id = i <;> simp [h]
    · intro ku; by_cases h : ku.id = i <;> simp [h]
  | renameKeyUserByPubkey pk d =>
    cases hfind : db.keyUsers.find? (fun ku => ku.userPubkey == pk) with
    | none =>
      show _ ∧ _ ∧ _
      simp only [applyOp, hfind]
      exact ⟨fun ku h => ⟨ku, h, rfl, rfl, rfl⟩, fun sc h => h, fun hp => hp⟩
    | some target =>
      simp only [applyOp, hfind]
      refine ⟨mapUpdate_mono _ _ ?_, fun sc h => h, fun hp => mapUpdate_pairUnique _ _ ?_ hp⟩
      · intro ku; by_cases h : ku.id = target.id <;> simp [h]
      · intro ku; by_cases h : ku.id = target.id <;> simp [h]
  | createToken t => exact ⟨fun ku h => ⟨ku, h, rfl, rfl, rfl⟩, fun sc h => h, fun hp => hp⟩
  | createPolicy p => exact ⟨fun ku h => ⟨ku, h, rfl, rfl, rfl⟩, fun sc h => h, fun hp => hp⟩
  | createRequest now kn rid rp m pl =>
    exact ⟨fun ku h => ⟨ku, h, rfl, rfl, rfl⟩, fun sc h => h, fun hp => hp⟩
  | removeRequest i => exact ⟨fun ku h => ⟨ku, h, rfl, rfl, rfl⟩, fun sc h => h, fun hp => hp⟩
  | decideRequest i allowed now =>
    exact ⟨fun ku h => ⟨ku, h, rfl, rfl, rfl⟩, fun sc h => h, fun hp => hp⟩
  | setRequestParams i ps =>
    exact ⟨fun ku h => ⟨ku, h, rfl, rfl, rfl⟩, fun sc h => h, fun hp => hp⟩
  | appendLog row => exact ⟨fun ku h => ⟨ku, h, rfl, rfl, rfl⟩, fun sc h => h, fun hp => hp⟩

theorem applyOps_preserves (ops : List StoreOp) : ∀ db : Db,
    (PairUnique db → PairUnique (applyOps db ops))
    ∧ (∀ k c, HasVeto db k c → HasVeto (applyOps db ops) k c) := by
  induction ops with
  | nil => intro db; exact ⟨fun h => h, fun _ _ h => h⟩
  | cons op rest ih =>
    intro db
    obtain ⟨h1, h2, h3⟩ := applyOp_preserves db op
    obtain ⟨ih1, ih2⟩ := ih (applyOp db op)
    exact ⟨fun hp => ih1 (h3 hp), fun k c hv => ih2 k c (hasVeto_mono h1 h2 hv)⟩

theorem blockAll_pairUnique (db : Db) (rp kn : String) (hp : PairUnique db) :
    PairUnique (blockAllRequests db rp kn) :=
  upsertKeyUser_pairUnique db kn rp none hp

theorem blockAll_hasVeto (db : Db) (rp kn : String) :
    HasVeto (blockAllRequests db rp kn) kn rp := by
  refine ⟨(upsertKeyUser db kn rp none).1, ?_,
    (upsertKeyUser_fst_pair db kn rp none).1,
    (upsertKeyUser_fst_pair db kn rp none).2,
    ⟨(upsertKeyUser db kn rp none).1.id, "*", none, some false⟩, ?_, rfl, rfl, rfl⟩
  · exact upsertKeyUser_fst_mem db kn rp none
  · show _ ∈ (upsertKeyUser db kn rp none).2.conds ++ _
    exact List.mem_append_right _ (by simp)

/-- Claim C1: a `(keyName, clientPubkey)` key user carrying any
`method='*', allowed=false` row makes the evaluator deny every method and
payload regardless of other rows, and the denial holds in every store
state reachable — through any sequence of the daemon's mutations — after
`blockAllRequests(clientPubkey, keyName)` has run. -/
theorem wildcard_veto_precedence (db : Db) (ops : List StoreOp)
    (keyName clientPubkey method : String) (payload : Option RpcPayload)
    (hwf : PairUnique db) :
    (HasVeto db keyName clientPubkey →
      isRequestPermitted db keyName clientPubkey method payload = some false)
    ∧ isRequestPermitted (applyOps (blockAllRequests db clientPubkey keyName) ops)
        keyName clientPubkey method payload = some false := by
  constructor
  · exact fun hv => hasVeto_denies db keyName clientPubkey method payload hwf hv
  · obtain ⟨hp, hv⟩ := applyOps_preserves ops (blockAllRequests db clientPubkey keyName)
    exact hasVeto_denies _ _ _ _ _
      (hp (blockAll_pairUnique db clientPubkey keyName hwf))
      (hv keyName clientPubkey (blockAll_hasVeto db clientPubkey keyName))

/-- Witness for claim C1: after `blockAllRequests` and two further
mutations — an unrelated allow grant and a token redemption attempt — a
`get_public_key` request is still denied. -/
theorem wildcard_veto_precedence_witness :
    (HasVeto emptyDb "mykey" "client" →
      isRequestPermitted emptyDb "mykey" "client" "get_public_key" none = some false)
    ∧ isRequestPermitted
        (applyOps (blockAllRequests emptyDb "client" "mykey")
          [StoreOp.permitAll "client" "mykey" "sign_event" none (some ⟨some KindScope.all⟩),
           StoreOp.applyTok 0 "client" "nosuchtoken"])
        "mykey" "client" "get_public_key" none = some false :=
  wildcard_veto_precedence emptyDb
    [StoreOp.permitAll "client" "mykey" "sign_event" none (some ⟨some KindScope.all⟩),
     StoreOp.applyTok 0 "client" "nosuchtoken"]
    "mykey" "client" "get_public_key" none List.Pairwise.nil

theorem hbExitTime_gap : ∀ (obs : List Nat) (t : Nat),
    obs.Pairwise (· ≤ ·) → (∀ x ∈ obs, t ≤ x) →
    ∃ tr, (tr = t ∨ tr ∈ obs) ∧ hbExitTime t obs = tr + 50000 ∧
      ∀ o ∈ obs, o ≤ tr ∨ tr + 50000 ≤ o := by
  intro obs
  induction obs with
  | nil => intro t _ _; exact ⟨t, Or.inl rfl, rfl, by simp⟩
  | cons o rest ih =>
    intro t hp hall
    rcases List.pairwise_cons.mp hp with ⟨ho, hrest⟩
    by_cases hlt : o < t + 50000
    · obtain ⟨tr, hmem, hex, hgap⟩ := ih o hrest ho
      refine ⟨tr, ?_, ?_, ?_⟩
      · rcases hmem with rfl | hmm
        · exact Or.inr (List.mem_cons_self _ _)
        · exact Or.inr (List.mem_cons_of_mem _ hmm)
      · show hbExitTime t (o :: rest) = tr + 50000
        rw [hbExitTime, if_pos hlt]
        exact hex
      · intro x hx
        rcases List.mem_cons.mp hx with rfl | hx2
        · rcases hmem with rfl | hmm
          exacts [Or.inl (le_refl _), Or.inl (ho tr hmm)]
        · exact hgap x hx2
    · refine ⟨t, Or.inl rfl, ?_, ?_⟩
      · rw [hbExitTime, if_neg hlt]
      · intro x hx
        rcases List.mem_cons.mp hx with rfl | hx2
        · exact Or.inr (by omega)
        · exact Or.inr (le_trans (by omega) (ho x hx2))

/-- Claim C9: the admin channel's `setInterval` publishes a self-addressed
ping — matching the watchdog's own subscription filter — every 20 seconds
starting 20 s after startup; and over any time-ordered sequence of
observed self-pings, as soon as 50 seconds pass some re-arm point (startup
or an observation) without an observation, the watchdog fires at exactly
that point + 50 s and the process exits with status 1. -/
theorem heartbeat_spec (self : String) (start : Nat) (obs : List Nat)
    (hp : obs.Pairwise (· ≤ ·)) (hall : ∀ x ∈ obs, start ≤ x) :
    (pingPublishTime start 0 = start + 20000
      ∧ ∀ k, pingPublishTime start (k + 1) = pingPublishTime start k + 20000)
    ∧ matchesFilter (heartbeatFilter self) (mkPingEvent self) = true
    ∧ ∃ tr, (tr = start ∨ tr ∈ obs)
        ∧ (∀ o ∈ obs, o ≤ tr ∨ tr + 50000 ≤ o)
        ∧ heartbeatRun start obs = (tr + 50000, 1) := by
  refine ⟨⟨rfl, fun k => ?_⟩, ?_, ?_⟩
  · unfold pingPublishTime
    ring
  · simp [matchesFilter, heartbeatFilter, mkPingEvent]
  · obtain ⟨tr, h1, h2, h3⟩ := hbExitTime_gap obs start hp hall
    refine ⟨tr, h1, h3, ?_⟩
    unfold heartbeatRun
    rw [h2]

/-- Witness for claim C9: two observed pings at 20 s and 40 s, then
silence — the process exits 1 at 90 s. -/
theorem heartbeat_spec_witness :
    (pingPublishTime 0 0 = 0 + 20000
      ∧ ∀ k, pingPublishTime 0 (k + 1) = pingPublishTime 0 k + 20000)
    ∧ matchesFilter (heartbeatFilter "adminpk") (mkPingEvent "adminpk") = true
    ∧ ∃ tr, (tr = 0 ∨ tr ∈ [20000, 40000])
        ∧ (∀ o ∈ [20000, 40000], o ≤ tr ∨ tr + 50000 ≤ o)
        ∧ heartbeatRun 0 [20000, 40000] = (tr + 50000, 1) :=
  heartbeat_spec "adminpk" 0 [20000, 40000] (by decide) (by decide)

/-- Claim C8 (amended): every GET /requests row computes
`ttlSeconds = max(0, round((createdAt + 60 s − now) / 1 s))`, and a
`sign_event` row carries an `eventPreview` — kind, content, `tags || []`
projected from the first element — exactly when its stored `params`
column parses as a JSON array whose first element is truthy; a parse
failure, or a parse to anything but such an array, yields a null preview
and never an error. -/
theorem requests_row_spec (allKeys : String → Option StoredKeyE) (now : Int)
    (r : ReqRecord) :
    ((buildRequestRow allKeys now r).ttlSeconds
        = max 0 (msRoundToSeconds (r.createdAt + 60000 - now)))
    ∧ (r.method ≠ "sign_event" → (buildRequestRow allKeys now r).eventPreview = none)
    ∧ (∀ s, r.method = "sign_event" → r.params = some s → s ≠ "" →
        Json.parse s = none → (buildRequestRow allKeys now r).eventPreview = none)
    ∧ (∀ s j, r.method = "sign_event" → r.params = some s → s ≠ "" →
        Json.parse s = some j → (∀ ev rest, j ≠ Json.arr (ev :: rest)) →
        (buildRequestRow allKeys now r).eventPreview = none)
    ∧ (∀ s ev rest, r.method = "sign_event" → r.params = some s → s ≠ "" →
        Json.parse s = some (Json.arr (ev :: rest)) → ev.truthy = true →
        (buildRequestRow allKeys now r).eventPreview
          = some ⟨ev.getField "kind", ev.getField "content",
              match ev.getField "tags" with
              | some t => if t.truthy then t else Json.arr []
              | none => Json.arr []⟩)
    ∧ (∀ s ev rest, r.method = "sign_event" → r.params = some s → s ≠ "" →
        Json.parse s = some (Json.arr (ev :: rest)) → ev.truthy = false →
        (buildRequestRow allKeys now r).eventPreview = none)
    ∧ (r.method = "sign_event" → (r.params = none ∨ r.params = some "") →
        (buildRequestRow allKeys now r).eventPreview = none) := by
  refine ⟨rfl, ?_, ?_, ?_, ?_, ?_, ?_⟩
  · intro hm
    show eventPreviewOf r.method r.params = none
    unfold eventPreviewOf
    rw [if_neg (by simp [hm])]
  · intro s hm hs hne hparse
    show eventPreviewOf r.method r.params = none
    unfold eventPreviewOf
    rw [hm, hs]
    rw [if_pos (by simp [strTruthy, hne])]
    simp only [Option.getD_some]
    rw [hparse]
  · intro s j hm hs hne hparse hnotarr
    show eventPreviewOf r.method r.params = none
    unfold eventPreviewOf
    rw [hm, hs]
    rw [if_pos (by simp [strTruthy, hne])]
    simp only [Option.getD_some]
    rw [hparse]
    cases j with
    | arr elems =>
      cases elems with
      | nil => rfl
      | cons ev rest => exact absurd rfl (hnotarr ev rest)
    | null => rfl
    | bool b => rfl
    | num n => rfl
    | str s2 => rfl
    | obj fields => rfl
  · intro s ev rest hm hs hne hparse htr
    show eventPreviewOf r.method r.params = _
    unfold eventPreviewOf
    rw [hm, hs]
    rw [if_pos (by simp [strTruthy, hne])]
    simp only [Option.getD_some]
    rw [hparse]
    simp [htr]
  · intro s ev rest hm hs hne hparse htr
    show eventPreviewOf r.method r.params = none
    unfold eventPreviewOf
    rw [hm, hs]
    rw [if_pos (by simp [strTruthy, hne])]
    simp only [Option.getD_some]
    rw [hparse]
    simp [htr]
  · intro hm hp
    show eventPreviewOf r.method r.params = none
    unfold eventPreviewOf
    rcases hp with hp | hp <;> rw [hm, hp] <;> rw [if_neg (by simp [strTruthy])]

/-- Counterexample for claim C8 as frozen: a `sign_event` pending request
persisted by `persistRequest` stores the bare event JSON; it parses fine,
yet the GET /requests row built from it carries no `eventPreview`, because
the handler demands a JSON array in the `params` column. -/
theorem requests_preview_missing :
    (persistRequest emptyDb 0 (some "mykey") "rid" "client" "sign_event"
        (some (RpcPayload.str orphanEventParams))).1.params = some orphanEventParams
    ∧ (persistRequest emptyDb 0 (some "mykey") "rid" "client" "sign_event"
        (some (RpcPayload.str orphanEventParams))).1.method = "sign_event"
    ∧ (Json.parse orphanEventParams).isSome = true
    ∧ (buildRequestRow (fun _ => none) 1000
        (persistRequest emptyDb 0 (some "mykey") "rid" "client" "sign_event"
          (some (RpcPayload.str orphanEventParams))).1).eventPreview = none :=
  ⟨rfl, rfl, rfl, rfl⟩

/-- Witness for claim C8: a row whose params column is a JSON array with a
truthy first element does get the kind/content/tags preview, and the ttl
arithmetic evaluates. -/
theorem requests_row_spec_witness :
    (buildRequestRow (fun _ => none) 500
        ⟨3, "rid", some "mykey", "client", "sign_event",
          some arrayEventParams, none, 0, none⟩).eventPreview
      = some ⟨some (Json.num 1), some (Json.str "hi"), Json.arr []⟩
    ∧ (buildRequestRow (fun _ => none) 500
        ⟨3, "rid", some "mykey", "client", "sign_event",
          some arrayEventParams, none, 0, none⟩).ttlSeconds
      = max 0 (msRoundToSeconds (0 + 60000 - 500)) :=
  ⟨(requests_row_spec (fun _ => none) 500
      ⟨3, "rid", some "mykey", "client", "sign_event",
        some arrayEventParams, none, 0, none⟩).2.2.2.2.1 arrayEventParams
      (Json.obj [("kind", Json.num 1), ("content", Json.str "hi"),
        ("tags", Json.arr [])]) [] rfl rfl (by decide) (by rfl) (by rfl),
    (requests_row_spec (fun _ => none) 500
      ⟨3, "rid", some "mykey", "client", "sign_event",
        some arrayEventParams, none, 0, none⟩).1⟩

end Signet
